import Mathlib

set_option autoImplicit false

/-!
Verification development for the Cobbler item model
(`cobbler/items/abstract/base_item.py`, `item_inheritable.py`, `item_bootable.py`).

Python values stored in item attributes, settings and search criteria are
embedded as the inductive types `SVal` (scalar values, including the values of
entries of a Python dict attribute) and `Value` (attribute values: scalars,
lists, dicts and enum members).  Python dicts are embedded as association
lists in insertion order; `dictSet`/`dictUpdate` mirror `d[k] = v` and
`d.update(e)`.
-/

namespace Cobbler

/-- A scalar Python value, as it occurs as the value of an entry of a
dict-valued item attribute or inside a list-valued attribute. -/
inductive SVal where
  | str : String → SVal
  | int : Int → SVal
  | bool : Bool → SVal
  | none : SVal
deriving DecidableEq, Repr

/-- A Python dict with string keys and scalar values, in insertion order. -/
abbrev DictV : Type := List (String × SVal)

/-- A Python value stored in a private item attribute, exposed by a property,
or held by the global settings object: a scalar, a list, a dict, or an enum
member (`enumv s` is an enum member whose `.value` is `s`). -/
inductive Value where
  | str : String → Value
  | int : Int → Value
  | bool : Bool → Value
  | list : List SVal → Value
  | dict : DictV → Value
  | enumv : SVal → Value
deriving DecidableEq, Repr

/-- The string behind `enums.VALUE_INHERITED` (the inherit sentinel). -/
def inheritStr : String := "<<inherit>>"

/-- `enums.VALUE_INHERITED` as a stored attribute value. -/
def VALUE_INHERITED : Value := Value.str inheritStr

/-- First value stored under a key in an association list (Python `d[k]` /
`k in d`, which always sees the unique binding of a Python dict). -/
def alookup {α : Type} : List (String × α) → String → Option α
  | [], _ => Option.none
  | kv :: rest, k => if kv.1 = k then some kv.2 else alookup rest k

/-- The keys of an association list are pairwise distinct (every Python dict
satisfies this). -/
def nodupKeys {α : Type} (d : List (String × α)) : Prop :=
  (d.map Prod.fst).Nodup

instance nodupKeysDecidable {α : Type} (d : List (String × α)) :
    Decidable (nodupKeys d) :=
  inferInstanceAs (Decidable (d.map Prod.fst).Nodup)

/-- Python `d[k] = v`: replace the binding in place when the key is present,
append it otherwise. -/
def dictSet (d : DictV) (k : String) (v : SVal) : DictV :=
  if (alookup d k).isSome then
    d.map (fun kv => if kv.1 = k then (k, v) else kv)
  else d ++ [(k, v)]

/-- Python `d.update(e)`: set every binding of `e` in `d`, in order. -/
def dictUpdate (d e : DictV) : DictV :=
  e.foldl (fun acc kv => dictSet acc kv.1 kv.2) d

/-- Modelled from the spec: the designated "removal" sentinel of the
annihilation semantics (`utils.dict_annihilate` lives in `cobbler/utils.py`,
which is not among the sources; the spec describes it as a specific sentinel
value that deletes the entry it is assigned to, the tilde string). -/
def removalSentinel : SVal := SVal.str "~"

/-- Modelled from the spec: `utils.dict_annihilate` — drop every entry whose
value equals the removal sentinel. -/
def dictAnnihilate (d : DictV) : DictV :=
  d.filter (fun kv => decide (kv.2 ≠ removalSentinel))

/-- Python `str.startswith`. -/
def pyStartsWith (s pre : String) : Bool :=
  List.isPrefixOf pre.toList s.toList

/-- Python `str.lower()`, over the character list (the attribute keys it is
applied to are ASCII). -/
def pyToLower (s : String) : String :=
  String.mk (s.toList.map Char.toLower)

/-- View of a `Value` as a dict.  `merged_dict.update(x)` in `_resolve_dict`
and the `for key in parent_value` loop in `_deduplicate_dict` are only reached
with dict values when the resolved property is one of the dict-valued
inheritable properties; a non-dict value there would make the Python raise,
which is outside the dict-property claims, so the view returns the empty dict
for non-dict values. -/
def Value.asDict : Value → DictV
  | .dict d => d
  | _ => []

/-- `getattr(attribute_value, "value", "")`: the `.value` of an enum member,
and the default `""` for any non-enum value. -/
def unwrapEnumValue : Value → SVal
  | .enumv s => s
  | _ => SVal.str ""

/-- The environment one item's resolution runs against.  `parentProps q` is
`getattr(self.parent, q)` when `hasattr(self.parent, q)` holds (the parent's
resolved property value; `Option.none` both when there is no parent and when
the parent does not expose the property — `hasattr(None, q)` is `False`, and
`hasattr` is also `False` when the parent's own getter raises).
`conceptualProps` does the same for `self.get_conceptual_parent()` and
`settings` for the global settings object. -/
structure ResolveEnv where
  parentProps : String → Option Value
  conceptualProps : String → Option Value
  settings : String → Option Value

/-- The data of the `AttributeError` raised by `_resolve`/`_resolve_enum`: it
names `type(self)`, `self.name` and the property. -/
structure ResolveError where
  itemType : String
  itemName : String
  propertyName : String
deriving DecidableEq, Repr

namespace BaseItem

/-- `BaseItem.__common_resolve`: computes the stored attribute value
(`getattr(self, "_" + property_name)`, where the attribute name becomes
`_proxy` for `proxy_url_*` properties) and the settings name (the property
name, except `default_ownership` for `owners`).  `attrs q` is the stored
value of the private attribute `_q`. -/
def commonResolve (attrs : String → Value) (p : String) : Value × String :=
  if pyStartsWith p "proxy_url_" then (attrs "proxy", p)
  else if p = "owners" then (attrs p, "default_ownership")
  else (attrs p, p)

end BaseItem

namespace InheritableItem

/-- `InheritableItem.__common_resolve`: same computation as the base version,
written with two separate `if` statements in the source. -/
def commonResolve (attrs : String → Value) (p : String) : Value × String :=
  let p1 := if pyStartsWith p "proxy_url_" then "proxy" else p
  let settingsName := if p1 = "owners" then "default_ownership" else p
  (attrs p1, settingsName)

/-- `InheritableItem.__resolve_get_parent_or_settings`: first the direct
parent (when it exposes the property), then the conceptual parent, then
settings under the settings name, then settings under
`default_<settings name>`. -/
def resolveGetParentOrSettings (env : ResolveEnv) (p sn : String) :
    Option Value :=
  match env.parentProps p with
  | some v => some v
  | Option.none =>
    match env.conceptualProps p with
    | some v => some v
    | Option.none =>
      match env.settings sn with
      | some v => some v
      | Option.none => env.settings ("default_" ++ sn)

/-- `InheritableItem._resolve`. -/
def resolve (env : ResolveEnv) (attrs : String → Value)
    (itemType itemName propertyName : String) : Except ResolveError Value :=
  if (commonResolve attrs propertyName).1 = VALUE_INHERITED then
    match resolveGetParentOrSettings env propertyName
        (commonResolve attrs propertyName).2 with
    | some v => Except.ok v
    | Option.none => Except.error ⟨itemType, itemName, propertyName⟩
  else Except.ok (commonResolve attrs propertyName).1

/-- `InheritableItem._resolve_enum`.  Note: where `_resolve` passes
`property_name` to the parent/settings walk, the source here passes
`unwrapped_value` — which inside this branch is the inherit sentinel string
itself — as the property name.  `enumType` models applying `enum_type(...)`
to the resolved primitive. -/
def resolveEnum (env : ResolveEnv) (attrs : String → Value)
    (itemType itemName propertyName : String) (enumType : Value → Value) :
    Except ResolveError Value :=
  if unwrapEnumValue (commonResolve attrs propertyName).1 = SVal.str inheritStr then
    match resolveGetParentOrSettings env inheritStr
        (commonResolve attrs propertyName).2 with
    | some v => Except.ok (enumType v)
    | Option.none => Except.error ⟨itemType, itemName, propertyName⟩
  else Except.ok (commonResolve attrs propertyName).1

/-- The seeding of `merged_dict` in `InheritableItem._resolve_dict`: an empty
dict updated with the conceptual parent's mapping when the conceptual parent
exposes the property, else with the settings mapping under the property name
when settings expose it, else left empty. -/
def resolveDictBase (env : ResolveEnv) (p : String) : DictV :=
  match env.conceptualProps p with
  | some v => dictUpdate [] v.asDict
  | Option.none =>
    match env.settings p with
    | some v => dictUpdate [] v.asDict
    | Option.none => []

/-- `InheritableItem._resolve_dict`: seed `merged_dict` as above, overlay the
item's own stored mapping unless that is the inherit sentinel, and run
`utils.dict_annihilate` on the result. -/
def resolveDict (env : ResolveEnv) (attrs : String → Value) (p : String) :
    DictV :=
  dictAnnihilate
    (if attrs p ≠ VALUE_INHERITED then
      dictUpdate (resolveDictBase env p) (attrs p).asDict
    else resolveDictBase env p)

/-- The `parent_value` of `InheritableItem._deduplicate_dict`: the source
inlines the same parent → conceptual parent → settings →
`default_<settings name>` chain as `__resolve_get_parent_or_settings`, with
`{}` when no source defines the property. -/
def deduplicateParentValue (env : ResolveEnv) (attrs : String → Value)
    (p : String) : DictV :=
  match resolveGetParentOrSettings env p (commonResolve attrs p).2 with
  | some v => v.asDict
  | Option.none => []

/-- `InheritableItem._deduplicate_dict`: pop from `value` every key whose
value equals `parent_value`'s value for the same key. -/
def deduplicateDict (env : ResolveEnv) (attrs : String → Value)
    (propertyName : String) (value : DictV) : DictV :=
  value.filter (fun kv =>
    decide (¬ alookup (deduplicateParentValue env attrs propertyName) kv.1
      = some kv.2))

end InheritableItem

/-- Modelled from the spec: the per-item cache (`cobbler/items/abstract/item_cache.py`
is not among the sources).  Per the spec it holds two slots — the "raw dict"
and the "resolved dict" snapshots; `set_dict_cache(value, resolved)` writes
one slot and `clean_dict_cache()` clears both. -/
structure ItemCache where
  rawDict : Option DictV
  resolvedDict : Option DictV
deriving DecidableEq, Repr

/-- Modelled from the spec: `ItemCache.set_dict_cache(value, resolved)`. -/
def ItemCache.setDictCache (c : ItemCache) (v : Option DictV) (resolved : Bool) :
    ItemCache :=
  if resolved then { c with resolvedDict := v } else { c with rawDict := v }

/-- Modelled from the spec: `ItemCache.clean_dict_cache()`. -/
def ItemCache.cleanDictCache (_ : ItemCache) : ItemCache :=
  ⟨Option.none, Option.none⟩

/-- One Cobbler item as the traversal and cache-invalidation code sees it:
`_uid`, `_name`, the class constant `COLLECTION_TYPE`, `_parent`, `_depth`,
`_inmemory`, the remaining stored attributes (those the registry searches
read: `distro`, `profile`, `image`, `menu`, `repos`, ...) and the item's
`ItemCache`. -/
structure Item where
  uid : String
  name : String
  ctype : String
  parentName : String
  depth : Int
  inmemory : Bool
  attrs : List (String × Value)
  cache : ItemCache
deriving DecidableEq, Repr

/-- The world the traversals run in: the registry of all items (behind
`api.get_items` / `api.find_items`), the global `settings.cache_enabled`
flag, and the class-level classification of property descriptors —
`isinstance(getattr(type(self), name[1:]), (InheritableProperty,
InheritableDictProperty))` — per collection type and property name. -/
structure World where
  items : List Item
  cacheEnabled : Bool
  isInheritableAttr : String → String → Bool

/-- `api.get_items(t)`: the collection of items of collection type `t`. -/
def getItems (w : World) (t : String) : List Item :=
  w.items.filter (fun i => decide (i.ctype = t))

/-- `collection.get(name)`: lookup by name in a typed collection. -/
def getItemByName (w : World) (t n : String) : Option Item :=
  (getItems w t).find? (fun i => decide (i.name = n))

/-- The attribute value a registry search reads from an item: `parent` is the
stored `_parent` name, everything else comes from the item's attribute map. -/
def Item.getAttr (i : Item) (a : String) : Option Value :=
  if a = "parent" then some (Value.str i.parentName) else alookup i.attrs a

/-- Modelled from the spec: the registry search
`api.find_items(t, {attr: name}, return_list=True)` (the collection layer is
not among the sources; per the spec it returns the entities of type `t`
depending on the named item "through a named attribute" — those whose
attribute equals the name, or, for list-valued attributes such as a
profile's `repos`, contains it). -/
def findItems (w : World) (t attrName nameVal : String) : List Item :=
  (getItems w t).filter (fun i =>
    match i.getAttr attrName with
    | some (Value.str s) => decide (s = nameVal)
    | some (Value.list l) => l.contains (SVal.str nameVal)
    | _ => false)

/-- Python `==` / hashing / set membership for items compares uids
(`BaseItem.__eq__`, `BaseItem.__hash__`). -/
def uidMem (x : Item) (l : List Item) : Bool :=
  l.any (fun y => decide (y.uid = x.uid))

/-- A Python `set` of items flattened to a duplicate-free list of uids (the
iteration order of a set is unspecified; membership is what the claims use). -/
def uidDedup : List Item → List Item
  | [] => []
  | x :: xs => if uidMem x xs then uidDedup xs else x :: uidDedup xs

namespace InheritableItem

/-- The class constant `InheritableItem.COLLECTION_TYPE`. -/
def COLLECTION_TYPE : String := "inheritableitem"

/-- The class-level dict `InheritableItem.TYPE_DEPENDENCIES`. -/
def TYPE_DEPENDENCIES_TABLE : List (String × List (String × String)) :=
  [("repo", [("profile", "repos")]),
   ("distro", [("profile", "distro")]),
   ("menu", [("menu", "parent"), ("image", "menu"), ("profile", "menu")]),
   ("profile", [("profile", "parent"), ("system", "profile")]),
   ("image", [("system", "image")]),
   ("system", [])]

/-- Indexing `InheritableItem.TYPE_DEPENDENCIES[t]`.  Unknown collection
types map to the empty list (indexing the Python dict with an unknown type
would raise `KeyError`; every item the claims quantify over carries one of
the six declared types). -/
def TYPE_DEPENDENCIES (t : String) : List (String × String) :=
  (alookup TYPE_DEPENDENCIES_TABLE t).getD []

/-- `InheritableItem.children`: every item of the same collection type whose
`get_parent` equals this item's `_name`. -/
def children (w : World) (i : Item) : List Item :=
  (getItems w i.ctype).filter (fun j => decide (j.parentName = i.name))

/-- `InheritableItem.tree_walk()`, with explicit recursion fuel: the source
recurses along `children` with no cycle guard, relying on the acyclicity of
the parent relation; with enough fuel this is its depth-first pre-order
child expansion. -/
def tree_walk (w : World) : Nat → Item → List Item
  | 0, _ => []
  | fuel + 1, i => (children w i).flatMap (fun c => c :: tree_walk w fuel c)

/-- `InheritableItem.descendants`, with explicit recursion fuel matching the
source's recursion through dependent items' own `descendants`: the set of
`tree_walk()` results plus, for every item of `tree_walk() + [self]`, the
registry items depending on it through `TYPE_DEPENDENCIES`, plus those
dependents' descendants. -/
def descendants (w : World) : Nat → Item → List Item
  | 0, _ => []
  | fuel + 1, i =>
    uidDedup (tree_walk w (fuel + 1) i ++
      (tree_walk w (fuel + 1) i ++ [i]).flatMap (fun c =>
        (TYPE_DEPENDENCIES c.ctype).flatMap (fun dep =>
          findItems w dep.1 dep.2 c.name ++
            (findItems w dep.1 dep.2 c.name).flatMap
              (fun dp => descendants w fuel dp))))

end InheritableItem

/-- Update every registry item through `f` (the Python loops mutate the item
objects held by the registry in place). -/
def mapItems (w : World) (f : Item → Item) : World :=
  { w with items := w.items.map f }

/-- Strip the leading underscore of a private attribute name (`name[1:]`). -/
def dropUnderscore (n : String) : String :=
  String.mk (n.toList.drop 1)

/-- The loop body `dep_item.cache.set_dict_cache(None, True)` of
`_clean_dict_cache`, as the registry-wide update it performs: items in the
descendant set get their resolved-dict slot set to `None`. -/
def invalidateResolvedIfDescendant (ds : List Item) (j : Item) : Item :=
  if uidMem j ds then { j with cache := j.cache.setDictCache Option.none true }
  else j

/-- The trailing `self.cache.clean_dict_cache()` of `_clean_dict_cache`, as a
registry-wide update keyed by the mutated item's uid. -/
def cleanOwnCache (selfUid : String) (j : Item) : Item :=
  if j.uid = selfUid then { j with cache := j.cache.cleanDictCache } else j

/-- The trailing `super().__setattr__(name, value)` of `__setattr__`, as a
registry-wide update keyed by the mutated item's uid (the private attribute
`_p` lands in the attribute map under `p`). -/
def storeAttr (selfUid attrKey : String) (v : Value) (j : Item) : Item :=
  if j.uid = selfUid then
    { j with attrs :=
        if (alookup j.attrs attrKey).isSome then
          j.attrs.map (fun kv => if kv.1 = attrKey then (attrKey, v) else kv)
        else j.attrs ++ [(attrKey, v)] }
  else j

namespace InheritableItem

/-- `InheritableItem._clean_dict_cache(name)`: when an attribute name was
given and the item is in memory, and its class property descriptor for
`name[1:]` is an inheritable one, and its collection type is not the abstract
`InheritableItem.COLLECTION_TYPE`, and the item is present in its
collection's index, set the resolved-dict slot of every descendant's cache to
`None`; in every case clear both of the item's own cache slots afterwards. -/
def clean_dict_cache (fuel : Nat) (w : World) (self : Item) :
    Option String → World
  | some n =>
    mapItems
      (if self.inmemory
          && w.isInheritableAttr self.ctype (dropUnderscore n)
          && decide (self.ctype ≠ COLLECTION_TYPE)
          && (getItemByName w self.ctype self.name).isSome then
        mapItems w (invalidateResolvedIfDescendant (descendants w fuel self))
      else w)
      (cleanOwnCache self.uid)
  | Option.none => mapItems w (cleanOwnCache self.uid)

/-- `InheritableItem.clean_cache(name)`: nothing when caching is globally
disabled; `_clean_dict_cache(name)` when the item is in memory. -/
def clean_cache (fuel : Nat) (w : World) (self : Item) (name : Option String) :
    World :=
  if !w.cacheEnabled then w
  else if self.inmemory then clean_dict_cache fuel w self name
  else w

end InheritableItem

namespace BaseItem

/-- Python substring containment (`sub in s`), over character lists. -/
def charsContain (sub : List Char) : List Char → Bool
  | [] => decide (sub = [])
  | c :: rest => List.isPrefixOf sub (c :: rest) || charsContain sub rest

/-- `BaseItem.__is_dict_key(name)`. -/
def is_dict_key (n : String) : Bool :=
  decide (n.toList.take 1 = ['_'])
    && !(charsContain "__".toList n.toList)
    && !(decide (n ∈ ["_cache", "_supported_boot_loaders", "_has_initialized",
          "_inmemory"]))

/-- `BaseItem.__setattr__` on an initialized inheritable item: when the
attribute is a dict key, run `clean_cache(name)` (the `InheritableItem`
override), then store the attribute (`super().__setattr__(name, value)`). -/
def setattr_ii (fuel : Nat) (w : World) (self : Item) (attrName : String)
    (v : Value) : World :=
  mapItems
    (if is_dict_key attrName then
      InheritableItem.clean_cache fuel w self (some attrName)
    else w)
    (storeAttr self.uid (dropUnderscore attrName) v)

end BaseItem

/-- The cache of the registry item carrying the given uid. -/
def cacheOfUid (w : World) (u : String) : Option ItemCache :=
  (w.items.find? (fun i => decide (i.uid = u))).map Item.cache

/-- The per-item state `from_dict` mutates: the private attribute storage
(keyed by property name, for `_<key>`), the `_inmemory` flag, and the item's
cache. -/
structure EState where
  attrs : List (String × Value)
  inmemory : Bool
  cache : ItemCache
deriving DecidableEq, Repr

namespace BaseItem

/-- `BaseItem.clean_cache()` with no attribute name: clear both cache slots,
unless caching is disabled or the item is not in memory. -/
def clean_cache_base (cacheEnabled : Bool) (σ : EState) : EState :=
  if !cacheEnabled then σ
  else if !σ.inmemory then σ
  else { σ with cache := σ.cache.cleanDictCache }

/-- One iteration of the `for key in dictionary` loop of
`BaseItem.from_dict`: a key whose lower-cased form names an existing private
attribute has its property setter invoked (`setf` models the per-property
setter acting on the private storage; `_has_initialized` is `False` for the
whole loop, so the per-set cache interception of `__setattr__` is
suppressed) and is popped from the working copy; other keys stay in the
working copy. -/
def from_dict_step
    (setf : String → Value → List (String × Value) → List (String × Value))
    (st : EState × List String) (kv : String × Value) :
    EState × List String :=
  if (alookup st.1.attrs (pyToLower kv.1)).isSome then
    ({ st.1 with attrs := setf (pyToLower kv.1) kv.2 st.1.attrs }, st.2)
  else (st.1, st.2 ++ [kv.1])

/-- `BaseItem.from_dict(dictionary)`: iterate the input once through
`from_dict_step`; afterwards `clean_cache()` runs once, and the remaining
keys — if any — are raised as the unknown-keys `KeyError` carrying the
already mutated state.  `BaseItem._remove_depreacted_dict_keys` is a
no-op. -/
def from_dict (cacheEnabled : Bool)
    (setf : String → Value → List (String × Value) → List (String × Value))
    (σ : EState) (d : List (String × Value)) :
    Except (List String × EState) EState :=
  if d.isEmpty then Except.ok σ
  else
    let loop := d.foldl (from_dict_step setf) (σ, [])
    let σ2 := clean_cache_base cacheEnabled loop.1
    if loop.2.isEmpty then Except.ok σ2
    else Except.error (loop.2, σ2)

/-- The `KeyError` escaping `find_match_single_key` when a missing key is
subscripted. -/
inductive MatchError where
  | keyError : String → MatchError
deriving DecidableEq, Repr

/-- `BaseItem.find_match_single_key(data, key, value, no_errors)`.  `cmp`
models the classmethod `_find_compare(value, data[key])`, whose typed
comparison the missing-key claim never reaches.  The source returns `False`
for a missing key only when `no_errors` is `False`; otherwise control falls
through, and for a non-`None` expected value `data[key]` is subscripted —
raising `KeyError` when the key is missing. -/
def find_match_single_key (cmp : Value → Value → Bool)
    (data : List (String × Value)) (key : String) (value : Option Value)
    (no_errors : Bool) : Except MatchError Bool :=
  if (alookup data key).isNone && !no_errors then Except.ok false
  else if value.isNone then Except.ok true
  else
    match value, alookup data key with
    | some v, some dv => Except.ok (cmp v dv)
    | some _, Option.none => Except.error (MatchError.keyError key)
    | Option.none, _ => Except.ok true

end BaseItem

/-- The character class `[a-zA-Z0-9_\-.:]` of `RE_OBJECT_NAME`. -/
def isAllowedNameChar (c : Char) : Bool :=
  c.isAlpha || c.isDigit || decide (c = '_') || decide (c = '-')
    || decide (c = '.') || decide (c = ':')

/-- `RE_OBJECT_NAME.match(name)` as a predicate: Python compiles the pattern
as the characters of the class repeated, then `$`; `re.match` anchors at the
start only, and `$` matches at the end of the string or just before a single
trailing newline.  The pattern therefore matches exactly when every character
is in the class, or when every character except one final newline is. -/
def re_object_name_match (s : String) : Bool :=
  s.toList.all isAllowedNameChar
    || (!s.toList.isEmpty && decide (s.toList.getLast? = some '\n')
        && s.toList.dropLast.all isAllowedNameChar)

/-- The error out of the `name` setter: `TypeError` for a non-string
argument, `ValueError` for disallowed characters. -/
inductive NameSetError where
  | typeError
  | valueError
deriving DecidableEq, Repr

namespace BaseItem

/-- The `BaseItem.name` setter. -/
def set_name (name : Value) : Except NameSetError String :=
  match name with
  | Value.str s =>
    if re_object_name_match s then Except.ok s
    else Except.error NameSetError.valueError
  | _ => Except.error NameSetError.typeError

end BaseItem

/-- One step of the dependency closure explored by `descendants`: `v` is one
of `u`'s same-type children, or one of the registry items returned by the
search for a `TYPE_DEPENDENCIES` entry of `u`'s collection type. -/
def Edge (w : World) (u v : Item) : Prop :=
  v ∈ InheritableItem.children w u ∨
    ∃ dep ∈ InheritableItem.TYPE_DEPENDENCIES u.ctype,
      v ∈ findItems w dep.1 dep.2 u.name

/-- Rank of a collection type in the cross-type dependency order: every
`TYPE_DEPENDENCIES` edge either strictly raises the rank or stays inside one
collection type through the `parent` attribute. -/
def ctypeRank : String → Nat
  | "repo" => 0
  | "distro" => 0
  | "menu" => 0
  | "profile" => 1
  | "image" => 1
  | "system" => 2
  | _ => 3

/-- Strict measure on items: collection-type rank first, then depth. -/
def MLt (u v : Item) : Prop :=
  ctypeRank u.ctype < ctypeRank v.ctype ∨
    (u.ctype = v.ctype ∧ u.depth < v.depth)

/-- The invariant the `parent` setter maintains (`self.depth = found.depth + 1`):
a registry item whose stored parent name equals a same-type registry item's
name sits exactly one level deeper. -/
def DepthInvariant (w : World) : Prop :=
  ∀ u ∈ w.items, ∀ v ∈ w.items, v.ctype = u.ctype → v.parentName = u.name →
    v.depth = u.depth + 1

instance depthInvariantDecidable (w : World) : Decidable (DepthInvariant w) :=
  inferInstanceAs (Decidable (∀ u ∈ w.items, ∀ v ∈ w.items,
    v.ctype = u.ctype → v.parentName = u.name → v.depth = u.depth + 1))

/-- Registry sanity: distinct registry entries never share a uid (a uid
"should never be used twice"). -/
def UidInjective (w : World) : Prop :=
  ∀ u ∈ w.items, ∀ v ∈ w.items, u.uid = v.uid → u = v

instance uidInjectiveDecidable (w : World) : Decidable (UidInjective w) :=
  inferInstanceAs (Decidable (∀ u ∈ w.items, ∀ v ∈ w.items,
    u.uid = v.uid → u = v))

/-- A list of items that is duplicate-free as a set of Python items, i.e. by
uid. -/
def UidNodup (l : List Item) : Prop :=
  (l.map Item.uid).Nodup

/-- Sample resolution environment: no parents, empty settings. -/
def env0 : ResolveEnv :=
  ⟨fun _ => Option.none, fun _ => Option.none, fun _ => Option.none⟩

/-- Sample stored attributes: a concrete comment, everything else the inherit
sentinel. -/
def attrs0 : String → Value :=
  fun q => if q = "comment" then Value.str "hello" else VALUE_INHERITED

/-- Sample environment for dict resolution: the conceptual parent exposes a
kernel-options mapping with one removal-sentinel entry. -/
def env2 : ResolveEnv :=
  ⟨fun _ => Option.none,
   fun q => if q = "kernel_options" then
       some (Value.dict [("a", SVal.str "1"), ("b", SVal.str "2"),
         ("c", removalSentinel)])
     else Option.none,
   fun _ => Option.none⟩

/-- Sample stored attributes for dict resolution: an own kernel-options
mapping that overrides `b` and removes `a`. -/
def attrs2 : String → Value :=
  fun q => if q = "kernel_options" then
      Value.dict [("b", SVal.str "9"), ("a", removalSentinel)]
    else VALUE_INHERITED

/-- Sample environment for enum resolution: the direct parent exposes
`status`. -/
def envEnum : ResolveEnv :=
  ⟨fun q => if q = "status" then some (Value.str "production") else Option.none,
   fun _ => Option.none, fun _ => Option.none⟩

/-- Sample stored attributes for enum resolution: every attribute holds an
enum member wrapping the inherit sentinel. -/
def attrsEnum : String → Value :=
  fun _ => Value.enumv (SVal.str inheritStr)

/-- Sample environment for the proxy settings-name behaviour: settings expose
only the shared `proxy` key. -/
def envProxy : ResolveEnv :=
  ⟨fun _ => Option.none, fun _ => Option.none,
   fun q => if q = "proxy" then some (Value.str "http://proxy.example:3128")
     else Option.none⟩

/-- Sample stored attributes for the proxy behaviour: everything inherits. -/
def attrsProxy : String → Value := fun _ => VALUE_INHERITED

/-- Sample environment for deduplication: the direct parent exposes a
kernel-options mapping. -/
def env8 : ResolveEnv :=
  ⟨fun q => if q = "kernel_options" then
      some (Value.dict [("a", SVal.str "1"), ("b", SVal.str "2")])
    else Option.none,
   fun _ => Option.none, fun _ => Option.none⟩

/-- Sample stored attributes for deduplication: everything inherits. -/
def attrs8 : String → Value := fun _ => VALUE_INHERITED

/-- Sample item: a distro. -/
def itemD : Item :=
  ⟨"uid-d", "d0", "distro", "", 0, true, [], ⟨Option.none, Option.none⟩⟩

/-- Sample item: a profile built on the distro. -/
def itemP : Item :=
  ⟨"uid-p", "p0", "profile", "", 0, true, [("distro", Value.str "d0")],
    ⟨Option.none, Option.none⟩⟩

/-- Sample item: a sub-profile of the profile. -/
def itemQ : Item :=
  ⟨"uid-q", "q0", "profile", "p0", 1, true, [("distro", Value.str "")],
    ⟨Option.none, Option.none⟩⟩

/-- Sample world for the descendants claim. -/
def w7 : World := ⟨[itemD, itemP, itemQ], true, fun _ _ => true⟩

/-- Sample item for cache invalidation: a profile with warm cache slots. -/
def itemP3 : Item :=
  ⟨"uid-p3", "p3", "profile", "", 0, true, [],
    ⟨some [("raw", SVal.str "p")], some [("res", SVal.str "p")]⟩⟩

/-- Sample item for cache invalidation: a system depending on the profile,
with warm cache slots. -/
def itemS3 : Item :=
  ⟨"uid-s3", "s3", "system", "", 0, true, [("profile", Value.str "p3")],
    ⟨some [("raw", SVal.str "s")], some [("res", SVal.str "s")]⟩⟩

/-- Sample world for cache invalidation, caching enabled, `kernel_options`
the only inheritable property. -/
def w3 : World :=
  ⟨[itemP3, itemS3], true, fun _ prop => decide (prop = "kernel_options")⟩

/-- Sample item for the disabled-cache counterexample, with warm cache
slots. -/
def itemC3 : Item :=
  ⟨"uid-c3", "c3", "profile", "", 0, true, [],
    ⟨some [("raw", SVal.str "c")], some [("res", SVal.str "c")]⟩⟩

/-- Sample world with caching globally disabled. -/
def w3c : World := ⟨[itemC3], false, fun _ _ => true⟩

/-- A simple per-property setter for the `from_dict` witness: overwrite the
stored attribute in place. -/
def overwriteSetter (k : String) (v : Value)
    (a : List (String × Value)) : List (String × Value) :=
  a.map (fun kv => if kv.1 = k then (k, v) else kv)

/-- Sample entity state for `from_dict`: two private attributes, warm
cache. -/
def sigma10 : EState :=
  ⟨[("name", Value.str ""), ("comment", Value.str "")], true,
    ⟨some [], some []⟩⟩

/-- Sample `from_dict` input: one recognized key, one unknown key. -/
def dict10 : List (String × Value) :=
  [("name", Value.str "n1"), ("bogus", Value.int 1)]

theorem alookup_append {α : Type} (d e : List (String × α)) (k : String) :
    alookup (d ++ e) k = match alookup d k with
      | some v => some v
      | Option.none => alookup e k := by
  induction d with
  | nil => simp [alookup]
  | cons kv rest ih =>
    by_cases h : kv.1 = k <;> simp [alookup, h, ih]

theorem alookup_eq_none {α : Type} (d : List (String × α)) (k : String) :
    alookup d k = Option.none ↔ k ∉ d.map Prod.fst := by
  induction d with
  | nil => simp [alookup]
  | cons kv rest ih =>
    by_cases h : kv.1 = k
    · simp [alookup, h]
    · have hne : ¬ (k = kv.1) := fun hk => h hk.symm
      simp [alookup, h, ih, hne]

theorem alookup_map_overwrite (d : DictV) (k : String) (v : SVal) :
    alookup (d.map (fun kv => if kv.1 = k then (k, v) else kv)) k =
      Option.map (fun _ => v) (alookup d k) := by
  induction d with
  | nil => simp [alookup]
  | cons kv rest ih =>
    by_cases h : kv.1 = k <;> simp [alookup, h, ih]

theorem alookup_map_other (d : DictV) (k : String) (v : SVal) (q : String)
    (hq : q ≠ k) :
    alookup (d.map (fun kv => if kv.1 = k then (k, v) else kv)) q =
      alookup d q := by
  induction d with
  | nil => simp [alookup]
  | cons kv rest ih =>
    simp only [List.map_cons]
    by_cases h : kv.1 = k
    · have h1 : ¬ (k = q) := fun hkq => hq hkq.symm
      have h2 : ¬ (kv.1 = q) := h ▸ h1
      simp [alookup, h, h1, h2, ih]
    · by_cases h2 : kv.1 = q
      · simp [alookup, h, h2, hq]
      · simp [alookup, h, h2, ih]

theorem alookup_dictSet (d : DictV) (k : String) (v : SVal) (q : String) :
    alookup (dictSet d k v) q = if q = k then some v else alookup d q := by
  unfold dictSet
  by_cases hp : (alookup d k).isSome
  · rcases Option.isSome_iff_exists.mp hp with ⟨w, hw⟩
    by_cases hq : q = k
    · subst hq
      simp [hp, alookup_map_overwrite, hw]
    · simp [hp, alookup_map_other d k v q hq, hq]
  · have hnone : alookup d k = Option.none := Option.not_isSome_iff_eq_none.mp hp
    rw [if_neg hp, alookup_append]
    by_cases hq : q = k
    · subst hq
      simp [hnone, alookup]
    · cases h : alookup d q with
      | none =>
        simp [h, alookup, hq, show ¬ (k = q) from fun hkq => hq hkq.symm]
      | some w => simp [h, hq]

theorem alookup_dictUpdate (d e : DictV) (q : String) (he : nodupKeys e) :
    alookup (dictUpdate d e) q = match alookup e q with
      | some v => some v
      | Option.none => alookup d q := by
  induction e generalizing d with
  | nil => simp [dictUpdate, alookup]
  | cons kv rest ih =>
    have he' : (kv.1 :: rest.map Prod.fst).Nodup := by
      simpa [nodupKeys] using he
    have hknotin : kv.1 ∉ rest.map Prod.fst := (List.nodup_cons.mp he').1
    have hrest : nodupKeys rest := (List.nodup_cons.mp he').2
    have step : dictUpdate d (kv :: rest) = dictUpdate (dictSet d kv.1 kv.2) rest := by
      simp [dictUpdate]
    rw [step, ih _ hrest]
    by_cases hq : kv.1 = q
    · subst hq
      have : alookup rest kv.1 = Option.none := (alookup_eq_none rest kv.1).mpr hknotin
      simp [alookup, this, alookup_dictSet]
    · have hq2 : ¬ (q = kv.1) := fun h => hq h.symm
      cases h : alookup rest q with
      | none => simp [alookup, hq, h, alookup_dictSet, hq2]
      | some w => simp [alookup, hq, h]

theorem alookup_filter_of_none {α : Type} (d : List (String × α))
    (p : String × α → Bool) (q : String) (h : q ∉ d.map Prod.fst) :
    alookup (d.filter p) q = Option.none := by
  rw [alookup_eq_none]
  intro hmem
  apply h
  simp only [List.mem_map] at hmem ⊢
  rcases hmem with ⟨kv, hkv, hfst⟩
  exact ⟨kv, (List.mem_filter.mp hkv).1, hfst⟩

theorem alookup_dictAnnihilate (d : DictV) (q : String) (hd : nodupKeys d) :
    alookup (dictAnnihilate d) q = match alookup d q with
      | some v => if v = removalSentinel then Option.none else some v
      | Option.none => Option.none := by
  induction d with
  | nil => simp [dictAnnihilate, alookup]
  | cons kv rest ih =>
    have hd' : (kv.1 :: rest.map Prod.fst).Nodup := by
      simpa [nodupKeys] using hd
    have hknotin : kv.1 ∉ rest.map Prod.fst := (List.nodup_cons.mp hd').1
    have hrest : nodupKeys rest := (List.nodup_cons.mp hd').2
    by_cases hv : kv.2 = removalSentinel
    · have hstep : dictAnnihilate (kv :: rest) = dictAnnihilate rest := by
        simp [dictAnnihilate, List.filter_cons, hv]
      rw [hstep, ih hrest]
      by_cases hq : kv.1 = q
      · subst hq
        have hnone : alookup rest kv.1 = Option.none :=
          (alookup_eq_none rest kv.1).mpr hknotin
        simp [alookup, hnone, hv]
      · simp [alookup, hq]
    · have hstep : dictAnnihilate (kv :: rest) = kv :: dictAnnihilate rest := by
        simp [dictAnnihilate, List.filter_cons, hv]
      rw [hstep]
      by_cases hq : kv.1 = q
      · simp [alookup, hq, hv]
      · simp only [alookup, hq, if_false]
        exact ih hrest

theorem mem_dictAnnihilate (d : DictV) (kv : String × SVal)
    (h : kv ∈ dictAnnihilate d) : kv.2 ≠ removalSentinel := by
  have := (List.mem_filter.mp h).2
  simpa using this

theorem alookup_self_of_nodup {α : Type} (d : List (String × α))
    (hd : nodupKeys d) (kv : String × α) (h : kv ∈ d) :
    alookup d kv.1 = some kv.2 := by
  induction d with
  | nil => simp at h
  | cons hd0 rest ih =>
    have hd' : (hd0.1 :: rest.map Prod.fst).Nodup := by
      simpa [nodupKeys] using hd
    have hknotin : hd0.1 ∉ rest.map Prod.fst := (List.nodup_cons.mp hd').1
    have hrest : nodupKeys rest := (List.nodup_cons.mp hd').2
    rcases List.mem_cons.mp h with h1 | h1
    · subst h1
      simp [alookup]
    · have hne : ¬ (hd0.1 = kv.1) := by
        intro he
        exact hknotin (he ▸ List.mem_map.mpr ⟨kv, h1, rfl⟩)
      simp [alookup, hne, ih hrest h1]

theorem nodupKeys_dictSet (d : DictV) (k : String) (v : SVal)
    (hd : nodupKeys d) : nodupKeys (dictSet d k v) := by
  unfold dictSet
  by_cases hp : (alookup d k).isSome
  · rw [if_pos hp]
    have hkeys : (d.map (fun kv => if kv.1 = k then (k, v) else kv)).map Prod.fst
        = d.map Prod.fst := by
      rw [List.map_map]
      apply List.map_congr_left
      intro kv _
      by_cases h : kv.1 = k <;> simp [h]
    unfold nodupKeys
    rw [hkeys]
    exact hd
  · rw [if_neg hp]
    have hnone : alookup d k = Option.none := Option.not_isSome_iff_eq_none.mp hp
    have hnotin : k ∉ d.map Prod.fst := (alookup_eq_none d k).mp hnone
    unfold nodupKeys
    rw [List.map_append, List.nodup_append]
    refine ⟨hd, List.nodup_singleton k, ?_⟩
    intro a ha hb
    have hb' : a = k := by simpa using hb
    subst hb'
    exact hnotin ha

theorem nodupKeys_dictUpdate (d e : DictV) (hd : nodupKeys d) :
    nodupKeys (dictUpdate d e) := by
  induction e generalizing d with
  | nil => simpa [dictUpdate] using hd
  | cons kv rest ih =>
    have step : dictUpdate d (kv :: rest) = dictUpdate (dictSet d kv.1 kv.2) rest := by
      simp [dictUpdate]
    rw [step]
    exact ih _ (nodupKeys_dictSet d kv.1 kv.2 hd)

theorem dictUpdate_nil_of_nodup (d : DictV) (hd : nodupKeys d) :
    dictUpdate [] d = d := by
  suffices h : ∀ acc : DictV, (∀ k, k ∈ d.map Prod.fst → k ∉ acc.map Prod.fst) →
      dictUpdate acc d = acc ++ d by
    simpa using h [] (by simp)
  induction d with
  | nil => intro acc _; simp [dictUpdate]
  | cons kv rest ih =>
    intro acc hacc
    have hd' : (kv.1 :: rest.map Prod.fst).Nodup := by
      simpa [nodupKeys] using hd
    have hknotin : kv.1 ∉ rest.map Prod.fst := (List.nodup_cons.mp hd').1
    have hknacc : kv.1 ∉ acc.map Prod.fst := hacc kv.1 (by simp)
    have hset : dictSet acc kv.1 kv.2 = acc ++ [(kv.1, kv.2)] := by
      unfold dictSet
      have : alookup acc kv.1 = Option.none := (alookup_eq_none acc kv.1).mpr hknacc
      simp [this]
    have step : dictUpdate acc (kv :: rest) = dictUpdate (dictSet acc kv.1 kv.2) rest := by
      simp [dictUpdate]
    rw [step, hset]
    have hrest : nodupKeys rest := (List.nodup_cons.mp hd').2
    have := ih hrest (acc ++ [(kv.1, kv.2)]) ?_
    · simpa using this
    · intro k hk
      simp only [List.map_append, List.mem_append]
      rintro (h1 | h1)
      · exact hacc k (by simp [hk]) h1
      · have : k = kv.1 := by simpa using h1
        subst this
        exact hknotin hk

theorem alookup_isSome_iff {α : Type} (d : List (String × α)) (k : String) :
    (alookup d k).isSome = true ↔ k ∈ d.map Prod.fst := by
  constructor
  · intro h1
    by_contra h2
    rw [(alookup_eq_none d k).mpr h2] at h1
    simp at h1
  · intro h2
    cases h : alookup d k with
    | none => exact absurd ((alookup_eq_none d k).mp h) (by simpa using h2)
    | some v => simp

theorem mem_getItems (w : World) (t : String) (i : Item) :
    i ∈ getItems w t ↔ i ∈ w.items ∧ i.ctype = t := by
  simp [getItems, List.mem_filter]

theorem mem_children {w : World} {u v : Item}
    (h : v ∈ InheritableItem.children w u) :
    v ∈ w.items ∧ v.ctype = u.ctype ∧ v.parentName = u.name := by
  unfold InheritableItem.children at h
  have h1 := List.mem_filter.mp h
  have h2 := (mem_getItems w u.ctype v).mp h1.1
  exact ⟨h2.1, h2.2, by simpa using h1.2⟩

theorem mem_findItems {w : World} {t a n : String} {v : Item}
    (h : v ∈ findItems w t a n) : v ∈ w.items ∧ v.ctype = t := by
  unfold findItems at h
  exact (mem_getItems w t v).mp (List.mem_filter.mp h).1

theorem mem_findItems_parent {w : World} {t n : String} {v : Item}
    (h : v ∈ findItems w t "parent" n) : v.parentName = n := by
  unfold findItems at h
  have h1 := (List.mem_filter.mp h).2
  simpa [Item.getAttr] using h1

theorem Edge.target_mem {w : World} {u v : Item} (h : Edge w u v) :
    v ∈ w.items := by
  rcases h with h | ⟨dep, _, h⟩
  · exact (mem_children h).1
  · exact (mem_findItems h).1

theorem dep_rank (t : String) (dep : String × String)
    (h : dep ∈ InheritableItem.TYPE_DEPENDENCIES t) :
    ctypeRank t < ctypeRank dep.1 ∨ (dep.1 = t ∧ dep.2 = "parent") := by
  unfold InheritableItem.TYPE_DEPENDENCIES
      InheritableItem.TYPE_DEPENDENCIES_TABLE at h
  simp only [alookup] at h
  split at h
  · next heq =>
    subst heq
    simp at h
    subst h
    left; decide
  · split at h
    · next heq =>
      subst heq
      simp at h
      subst h
      left; decide
    · split at h
      · next heq =>
        subst heq
        simp at h
        rcases h with h | h | h <;> subst h
        · right; exact ⟨rfl, rfl⟩
        · left; decide
        · left; decide
      · split at h
        · next heq =>
          subst heq
          simp at h
          rcases h with h | h <;> subst h
          · right; exact ⟨rfl, rfl⟩
          · left; decide
        · split at h
          · next heq =>
            subst heq
            simp at h
            subst h
            left; decide
          · split at h
            · next heq =>
              subst heq
              simp at h
            · simp at h

theorem mlt_trans {a b c : Item} (h1 : MLt a b) (h2 : MLt b c) : MLt a c := by
  rcases h1 with h1 | ⟨e1, d1⟩ <;> rcases h2 with h2 | ⟨e2, d2⟩
  · left; omega
  · left; rw [← e2]; exact h1
  · left; rw [e1]; exact h2
  · right; exact ⟨e1.trans e2, by omega⟩

theorem mlt_irrefl (a : Item) : ¬ MLt a a := by
  rintro (h | ⟨_, h⟩) <;> omega

theorem edge_mlt {w : World} {u v : Item} (hd : DepthInvariant w)
    (hu : u ∈ w.items) (he : Edge w u v) : MLt u v := by
  rcases he with hc | ⟨dep, hdep, hf⟩
  · rcases mem_children hc with ⟨hm, hct, hpn⟩
    right
    refine ⟨hct.symm, ?_⟩
    have := hd u hu v hm hct hpn
    omega
  · rcases dep_rank u.ctype dep hdep with hr | ⟨hdt, hda⟩
    · left
      rw [(mem_findItems hf).2]
      exact hr
    · right
      have hvm := mem_findItems hf
      have hvc : v.ctype = u.ctype := hdt ▸ hvm.2
      refine ⟨hvc.symm, ?_⟩
      rw [hda] at hf
      have hpn : v.parentName = u.name := mem_findItems_parent hf
      have := hd u hu v hvm.1 hvc hpn
      omega

theorem reaches_target_mem {w : World} {u x : Item}
    (h : Relation.TransGen (Edge w) u x) : x ∈ w.items := by
  induction h with
  | single he => exact he.target_mem
  | tail _ he _ => exact he.target_mem

theorem reaches_mlt {w : World} {u x : Item} (hd : DepthInvariant w)
    (hu : u ∈ w.items) (h : Relation.TransGen (Edge w) u x) : MLt u x := by
  induction h with
  | single he => exact edge_mlt hd hu he
  | tail hab he ih => exact mlt_trans ih (edge_mlt hd (reaches_target_mem hab) he)

theorem tree_walk_reaches (w : World) :
    ∀ (fuel : Nat) (i x : Item), x ∈ InheritableItem.tree_walk w fuel i →
      Relation.TransGen (Edge w) i x := by
  intro fuel
  induction fuel with
  | zero => intro i x h; simp [InheritableItem.tree_walk] at h
  | succ n ih =>
    intro i x h
    simp only [InheritableItem.tree_walk, List.mem_flatMap] at h
    rcases h with ⟨c, hc, hx⟩
    rcases List.mem_cons.mp hx with h1 | h1
    · subst h1
      exact Relation.TransGen.single (Or.inl hc)
    · exact Relation.TransGen.head (Or.inl hc) (ih c x h1)

theorem mem_uidDedup (l : List Item) (x : Item) (h : x ∈ uidDedup l) :
    x ∈ l := by
  induction l with
  | nil => simp [uidDedup] at h
  | cons y ys ih =>
    unfold uidDedup at h
    by_cases hm : uidMem y ys = true
    · rw [if_pos hm] at h
      exact List.mem_cons_of_mem y (ih h)
    · rw [if_neg hm] at h
      rcases List.mem_cons.mp h with h1 | h1
      · exact h1 ▸ List.mem_cons_self y ys
      · exact List.mem_cons_of_mem y (ih h1)

theorem uidMem_true_iff (x : Item) (l : List Item) :
    uidMem x l = true ↔ ∃ y ∈ l, y.uid = x.uid := by
  simp [uidMem]

theorem uidMem_uidDedup (x : Item) (l : List Item) :
    uidMem x (uidDedup l) = true ↔ uidMem x l = true := by
  induction l with
  | nil => simp [uidDedup]
  | cons y ys ih =>
    unfold uidDedup
    by_cases hm : uidMem y ys = true
    · rw [if_pos hm, ih]
      simp only [uidMem, List.any_eq_true, decide_eq_true_eq] at hm ⊢
      constructor
      · rintro ⟨z, hz, he⟩
        exact ⟨z, List.mem_cons_of_mem y hz, he⟩
      · rintro ⟨z, hz, he⟩
        rcases List.mem_cons.mp hz with h1 | h1
        · subst h1
          rcases hm with ⟨t, ht, hte⟩
          exact ⟨t, ht, by rw [hte, he]⟩
        · exact ⟨z, h1, he⟩
    · rw [if_neg hm]
      simp only [uidMem, List.any_eq_true, decide_eq_true_eq] at ih ⊢
      constructor
      · rintro ⟨z, hz, he⟩
        rcases List.mem_cons.mp hz with h1 | h1
        · subst h1
          exact ⟨z, List.mem_cons_self z ys, he⟩
        · rcases ih.mp ⟨z, h1, he⟩ with ⟨t, ht, hte⟩
          exact ⟨t, List.mem_cons_of_mem y ht, hte⟩
      · rintro ⟨z, hz, he⟩
        rcases List.mem_cons.mp hz with h1 | h1
        · subst h1
          exact ⟨z, List.mem_cons_self z (uidDedup ys), he⟩
        · rcases ih.mpr ⟨z, h1, he⟩ with ⟨t, ht, hte⟩
          exact ⟨t, List.mem_cons_of_mem y ht, hte⟩

theorem uidNodup_uidDedup (l : List Item) : UidNodup (uidDedup l) := by
  induction l with
  | nil => simp [uidDedup, UidNodup]
  | cons y ys ih =>
    unfold uidDedup
    by_cases hm : uidMem y ys = true
    · rw [if_pos hm]; exact ih
    · rw [if_neg hm]
      unfold UidNodup at ih ⊢
      rw [List.map_cons, List.nodup_cons]
      refine ⟨?_, ih⟩
      intro hmem
      apply hm
      rcases List.mem_map.mp hmem with ⟨z, hz, he⟩
      have hz' : z ∈ ys := mem_uidDedup ys z hz
      simp only [uidMem, List.any_eq_true, decide_eq_true_eq]
      exact ⟨z, hz', he⟩

theorem descendants_reaches (w : World) :
    ∀ (fuel : Nat) (i x : Item), x ∈ InheritableItem.descendants w fuel i →
      Relation.TransGen (Edge w) i x := by
  intro fuel
  induction fuel with
  | zero => intro i x h; simp [InheritableItem.descendants] at h
  | succ n ih =>
    intro i x h
    unfold InheritableItem.descendants at h
    have h1 := mem_uidDedup _ _ h
    rcases List.mem_append.mp h1 with h2 | h2
    · exact tree_walk_reaches w _ i x h2
    · rcases List.mem_flatMap.mp h2 with ⟨c, hc, hx⟩
      have hreach_c : c = i ∨ Relation.TransGen (Edge w) i c := by
        rcases List.mem_append.mp hc with h3 | h3
        · exact Or.inr (tree_walk_reaches w _ i c h3)
        · left; simpa using h3
      rcases List.mem_flatMap.mp hx with ⟨dep, hdep, hx2⟩
      rcases List.mem_append.mp hx2 with h4 | h4
      · have hedge : Edge w c x := Or.inr ⟨dep, hdep, h4⟩
        rcases hreach_c with rfl | hr
        · exact Relation.TransGen.single hedge
        · exact Relation.TransGen.tail hr hedge
      · rcases List.mem_flatMap.mp h4 with ⟨dp, hdp, hx3⟩
        have hedge : Edge w c dp := Or.inr ⟨dep, hdep, hdp⟩
        have hrest : Relation.TransGen (Edge w) dp x := ih dp x hx3
        rcases hreach_c with rfl | hr
        · exact Relation.TransGen.head hedge hrest
        · exact Relation.TransGen.trans (Relation.TransGen.tail hr hedge) hrest

theorem dropUnderscore_underscore (p : String) :
    dropUnderscore ("_" ++ p) = p := by
  show String.mk (("_" ++ p).data.drop 1) = p
  rw [String.data_append]
  rfl

theorem uid_invalidateResolvedIfDescendant (ds : List Item) (j : Item) :
    (invalidateResolvedIfDescendant ds j).uid = j.uid := by
  unfold invalidateResolvedIfDescendant
  split <;> rfl

theorem uid_cleanOwnCache (u : String) (j : Item) :
    (cleanOwnCache u j).uid = j.uid := by
  unfold cleanOwnCache
  split <;> rfl

theorem uid_storeAttr (u k : String) (v : Value) (j : Item) :
    (storeAttr u k v j).uid = j.uid := by
  unfold storeAttr
  split <;> rfl

theorem cache_storeAttr (u k : String) (v : Value) (j : Item) :
    (storeAttr u k v j).cache = j.cache := by
  unfold storeAttr
  split <;> rfl

theorem raw_invalidateResolvedIfDescendant (ds : List Item) (j : Item) :
    (invalidateResolvedIfDescendant ds j).cache.rawDict = j.cache.rawDict := by
  unfold invalidateResolvedIfDescendant ItemCache.setDictCache
  split <;> rfl

theorem mapItems_mapItems (w : World) (f g : Item → Item) :
    mapItems (mapItems w f) g = mapItems w (fun i => g (f i)) := by
  simp [mapItems, List.map_map, Function.comp]

theorem find_map_uid (l : List Item) (f : Item → Item)
    (hf : ∀ i, (f i).uid = i.uid) (u : String) :
    (l.map f).find? (fun i => decide (i.uid = u))
      = Option.map f (l.find? (fun i => decide (i.uid = u))) := by
  induction l with
  | nil => rfl
  | cons x xs ih =>
    simp only [List.map_cons]
    by_cases h : x.uid = u
    · rw [List.find?_cons_of_pos _ (by simp [hf, h]),
        List.find?_cons_of_pos _ (by simp [h])]
      rfl
    · rw [List.find?_cons_of_neg _ (by simp [hf, h]),
        List.find?_cons_of_neg _ (by simp [h])]
      exact ih

theorem find_uid_of_mem (l : List Item)
    (hinj : ∀ u ∈ l, ∀ v ∈ l, u.uid = v.uid → u = v) (j : Item) (hj : j ∈ l) :
    l.find? (fun i => decide (i.uid = j.uid)) = some j := by
  induction l with
  | nil => simp at hj
  | cons x xs ih =>
    by_cases h : x.uid = j.uid
    · have hx : x = j := hinj x (List.mem_cons_self x xs) j hj h
      rw [List.find?_cons_of_pos _ (by simp [h]), hx]
    · have hj' : j ∈ xs := by
        rcases List.mem_cons.mp hj with h1 | h1
        · exact absurd (by rw [h1]) h
        · exact h1
      rw [List.find?_cons_of_neg _ (by simp [h])]
      exact ih (fun a ha b hb =>
        hinj a (List.mem_cons_of_mem x ha) b (List.mem_cons_of_mem x hb)) hj'

theorem cacheOfUid_mapItems (w : World) (f : Item → Item)
    (hf : ∀ i, (f i).uid = i.uid) (u : String) :
    cacheOfUid (mapItems w f) u
      = Option.map (fun i => (f i).cache)
          (w.items.find? (fun i => decide (i.uid = u))) := by
  unfold cacheOfUid mapItems
  rw [find_map_uid w.items f hf u]
  cases w.items.find? (fun i => decide (i.uid = u)) <;> rfl

theorem overwriteSetter_keys (k : String) (v : Value)
    (a : List (String × Value)) :
    (overwriteSetter k v a).map Prod.fst = a.map Prod.fst := by
  unfold overwriteSetter
  rw [List.map_map]
  apply List.map_congr_left
  intro kv _
  by_cases h : kv.1 = k <;> simp [h]

/-- C1: when an inheritable item's stored value for a property is the inherit
sentinel, `_resolve` returns the direct parent's resolved value when the
parent exposes the property; otherwise the conceptual parent's resolved value
when it exposes it; otherwise the settings value under the property's
settings name; otherwise the settings value under `default_<settings name>`;
and when none of these yields a value it fails with an error naming the item
type, item name and property.  A concrete stored value is returned
unchanged. -/
theorem claim_C1_resolve (env : ResolveEnv) (attrs : String → Value)
    (ty nm p : String) :
    ((InheritableItem.commonResolve attrs p).1 = VALUE_INHERITED →
      ((∀ v, env.parentProps p = some v →
          InheritableItem.resolve env attrs ty nm p = Except.ok v) ∧
       (env.parentProps p = Option.none →
          ∀ v, env.conceptualProps p = some v →
          InheritableItem.resolve env attrs ty nm p = Except.ok v) ∧
       (env.parentProps p = Option.none → env.conceptualProps p = Option.none →
          ∀ v, env.settings (InheritableItem.commonResolve attrs p).2 = some v →
          InheritableItem.resolve env attrs ty nm p = Except.ok v) ∧
       (env.parentProps p = Option.none → env.conceptualProps p = Option.none →
          env.settings (InheritableItem.commonResolve attrs p).2 = Option.none →
          ∀ v, env.settings ("default_" ++ (InheritableItem.commonResolve attrs p).2)
            = some v →
          InheritableItem.resolve env attrs ty nm p = Except.ok v) ∧
       (env.parentProps p = Option.none → env.conceptualProps p = Option.none →
          env.settings (InheritableItem.commonResolve attrs p).2 = Option.none →
          env.settings ("default_" ++ (InheritableItem.commonResolve attrs p).2)
            = Option.none →
          InheritableItem.resolve env attrs ty nm p
            = Except.error ⟨ty, nm, p⟩))) ∧
    ((InheritableItem.commonResolve attrs p).1 ≠ VALUE_INHERITED →
      InheritableItem.resolve env attrs ty nm p
        = Except.ok (InheritableItem.commonResolve attrs p).1) := by
  constructor
  · intro hin
    refine ⟨?_, ?_, ?_, ?_, ?_⟩
    · intro v hv
      simp [InheritableItem.resolve, InheritableItem.resolveGetParentOrSettings,
        hin, hv]
    · intro h1 v hv
      simp [InheritableItem.resolve, InheritableItem.resolveGetParentOrSettings,
        hin, h1, hv]
    · intro h1 h2 v hv
      simp [InheritableItem.resolve, InheritableItem.resolveGetParentOrSettings,
        hin, h1, h2, hv]
    · intro h1 h2 h3 v hv
      simp [InheritableItem.resolve, InheritableItem.resolveGetParentOrSettings,
        hin, h1, h2, h3, hv]
    · intro h1 h2 h3 h4
      simp [InheritableItem.resolve, InheritableItem.resolveGetParentOrSettings,
        hin, h1, h2, h3, h4]
  · intro hne
    simp [InheritableItem.resolve, hne]

/-- Witness for C1 at concrete inputs: a concrete comment resolves to itself,
and an inherited property no source supplies fails with the naming error. -/
theorem claim_C1_resolve_witness :
    InheritableItem.resolve env0 attrs0 "distro" "d0" "comment"
      = Except.ok (Value.str "hello") ∧
    InheritableItem.resolve env0 attrs0 "distro" "d0" "status"
      = Except.error ⟨"distro", "d0", "status"⟩ := by
  constructor
  · exact (claim_C1_resolve env0 attrs0 "distro" "d0" "comment").2 (by decide)
  · exact ((claim_C1_resolve env0 attrs0 "distro" "d0" "status").1
      (by decide)).2.2.2.2 rfl rfl rfl rfl

/-- C2: `_resolve_dict` starts from the conceptual parent's mapping (or the
settings mapping when the conceptual parent does not expose the property),
overlays the item's own concrete mapping so that the item's own keys win on
collision, returns only the base mapping when the own stored value is the
inherit sentinel, and drops every merged entry whose value equals the
removal sentinel. -/
theorem claim_C2_resolve_dict (env : ResolveEnv) (attrs : String → Value)
    (p : String) (base own : DictV)
    (hbase : env.conceptualProps p = some (Value.dict base) ∨
      (env.conceptualProps p = Option.none ∧
        env.settings p = some (Value.dict base)))
    (hb : nodupKeys base) :
    (attrs p = VALUE_INHERITED →
        InheritableItem.resolveDict env attrs p = dictAnnihilate base) ∧
    (attrs p = Value.dict own →
        InheritableItem.resolveDict env attrs p
          = dictAnnihilate (dictUpdate base own)) ∧
    (attrs p = Value.dict own → nodupKeys own →
      (∀ k v, alookup own k = some v → v ≠ removalSentinel →
        alookup (InheritableItem.resolveDict env attrs p) k = some v) ∧
      (∀ k, alookup own k = Option.none →
        alookup (InheritableItem.resolveDict env attrs p) k
          = match alookup base k with
            | some v => if v = removalSentinel then Option.none else some v
            | Option.none => Option.none)) ∧
    (∀ kv ∈ InheritableItem.resolveDict env attrs p,
      kv.2 ≠ removalSentinel) := by
  have hbase' : InheritableItem.resolveDictBase env p = base := by
    rcases hbase with h | ⟨h1, h2⟩
    · simp [InheritableItem.resolveDictBase, h, Value.asDict,
        dictUpdate_nil_of_nodup base hb]
    · simp [InheritableItem.resolveDictBase, h1, h2, Value.asDict,
        dictUpdate_nil_of_nodup base hb]
  refine ⟨?_, ?_, ?_, ?_⟩
  · intro h
    simp [InheritableItem.resolveDict, h, hbase']
  · intro h
    have hne : Value.dict own ≠ VALUE_INHERITED := by simp [VALUE_INHERITED]
    simp [InheritableItem.resolveDict, h, hne, hbase', Value.asDict]
  · intro h hown
    have hne : Value.dict own ≠ VALUE_INHERITED := by simp [VALUE_INHERITED]
    have hmain : InheritableItem.resolveDict env attrs p
        = dictAnnihilate (dictUpdate base own) := by
      simp [InheritableItem.resolveDict, h, hne, hbase', Value.asDict]
    constructor
    · intro k v hk hv
      rw [hmain, alookup_dictAnnihilate _ _ (nodupKeys_dictUpdate base own hb),
        alookup_dictUpdate base own k hown, hk]
      simp [hv]
    · intro k hk
      rw [hmain, alookup_dictAnnihilate _ _ (nodupKeys_dictUpdate base own hb),
        alookup_dictUpdate base own k hown, hk]
  · intro kv hkv
    unfold InheritableItem.resolveDict at hkv
    exact mem_dictAnnihilate _ kv hkv

/-- Witness for C2 at concrete inputs: the merged kernel options override the
parent's `b`, annihilate `a` and the parent's removal-valued `c`. -/
theorem claim_C2_resolve_dict_witness :
    InheritableItem.resolveDict env2 attrs2 "kernel_options"
      = [("b", SVal.str "9")] ∧
    alookup (InheritableItem.resolveDict env2 attrs2 "kernel_options") "b"
      = some (SVal.str "9") := by
  have h := claim_C2_resolve_dict env2 attrs2 "kernel_options"
      [("a", SVal.str "1"), ("b", SVal.str "2"), ("c", removalSentinel)]
      [("b", SVal.str "9"), ("a", removalSentinel)]
      (Or.inl rfl) (by decide)
  constructor
  · rw [h.2.1 rfl]
    decide
  · exact (h.2.2.1 rfl (by decide)).1 "b" (SVal.str "9") (by decide) (by decide)

/-- C4: the code-level behaviour of `find_match_single_key` on a missing key:
with the strict flag (`no_errors=False`) the missing key yields `False`, but
with the lenient flag (`no_errors=True`) control falls through to the
`data[key]` subscript and raises `KeyError` instead of returning a
non-match; a present key compares via `_find_compare`. -/
theorem claim_C4_lenient_flag_bug :
    BaseItem.find_match_single_key (fun a b => decide (a = b)) [] "missing"
        (some (Value.str "x")) true
      = Except.error (BaseItem.MatchError.keyError "missing") ∧
    BaseItem.find_match_single_key (fun a b => decide (a = b)) [] "missing"
        (some (Value.str "x")) false
      = Except.ok false ∧
    BaseItem.find_match_single_key (fun a b => decide (a = b))
        [("uid", Value.str "x")] "uid" (some (Value.str "x")) false
      = Except.ok true := by
  exact ⟨rfl, rfl, rfl⟩

/-- C5: the code-level behaviour of `_resolve_enum`: because the source
passes the unwrapped inherit sentinel — not the property name — to the
parent/settings walk, an enum property whose parent exposes it still fails
when settings do not supply it, while the scalar `_resolve` on the same
environment returns the parent's value. -/
theorem claim_C5_resolve_enum_bug :
    envEnum.parentProps "status" = some (Value.str "production") ∧
    unwrapEnumValue (attrsEnum "status") = SVal.str inheritStr ∧
    InheritableItem.resolveEnum envEnum attrsEnum "system" "s0" "status" id
      = Except.error ⟨"system", "s0", "status"⟩ ∧
    InheritableItem.resolve envEnum (fun _ => VALUE_INHERITED)
        "system" "s0" "status"
      = Except.ok (Value.str "production") := by
  exact ⟨rfl, rfl, rfl, rfl⟩

/-- C6 counterexample: for the property name `proxy_url_ext` the settings
name computed by `__common_resolve` is the property name itself — not
`proxy` — so a resolution the claim predicts to succeed through the shared
`proxy` settings key fails. -/
theorem claim_C6_counterexample :
    (InheritableItem.commonResolve attrsProxy "proxy_url_ext").2
      = "proxy_url_ext" ∧
    (InheritableItem.commonResolve attrsProxy "proxy_url_ext").2 ≠ "proxy" ∧
    envProxy.settings "proxy" = some (Value.str "http://proxy.example:3128") ∧
    InheritableItem.resolve envProxy attrsProxy "distro" "d0" "proxy_url_ext"
      = Except.error ⟨"distro", "d0", "proxy_url_ext"⟩ := by
  exact ⟨by decide, by decide, rfl, rfl⟩

/-- C6 (amended): both `__common_resolve` versions agree; for a
`proxy_url_*`-prefixed property the stored attribute consulted is the shared
`_proxy` attribute while the settings name stays the property name itself
(so the settings walk reads `proxy_url_*` and `default_proxy_url_*`); for
`owners` the settings name is `default_ownership`; for every other property
the settings name equals the property name. -/
theorem claim_C6_settings_names (attrs : String → Value) (p : String) :
    BaseItem.commonResolve attrs p = InheritableItem.commonResolve attrs p ∧
    (pyStartsWith p "proxy_url_" = true →
      InheritableItem.commonResolve attrs p = (attrs "proxy", p)) ∧
    (p = "owners" →
      InheritableItem.commonResolve attrs p = (attrs p, "default_ownership")) ∧
    (pyStartsWith p "proxy_url_" = false → p ≠ "owners" →
      InheritableItem.commonResolve attrs p = (attrs p, p)) ∧
    (∀ (env : ResolveEnv) (ty nm : String),
      pyStartsWith p "proxy_url_" = true → attrs "proxy" = VALUE_INHERITED →
      env.parentProps p = Option.none → env.conceptualProps p = Option.none →
      env.settings p = Option.none →
      InheritableItem.resolve env attrs ty nm p
        = match env.settings ("default_" ++ p) with
          | some v => Except.ok v
          | Option.none => Except.error ⟨ty, nm, p⟩) := by
  have howners : pyStartsWith "owners" "proxy_url_" = false := by decide
  refine ⟨?_, ?_, ?_, ?_, ?_⟩
  · by_cases hs : pyStartsWith p "proxy_url_" = true
    · simp [BaseItem.commonResolve, InheritableItem.commonResolve, hs]
    · have hs' : pyStartsWith p "proxy_url_" = false := by
        simpa using hs
      by_cases ho : p = "owners"
      · subst ho
        simp [BaseItem.commonResolve, InheritableItem.commonResolve, hs']
      · simp [BaseItem.commonResolve, InheritableItem.commonResolve, hs', ho]
  · intro hs
    simp [InheritableItem.commonResolve, hs]
  · intro ho
    subst ho
    simp [InheritableItem.commonResolve, howners]
  · intro hs ho
    simp [InheritableItem.commonResolve, hs, ho]
  · intro env ty nm hs hpx h1 h2 h3
    have hin : (InheritableItem.commonResolve attrs p).1 = VALUE_INHERITED := by
      simp [InheritableItem.commonResolve, hs, hpx]
    have hsn : (InheritableItem.commonResolve attrs p).2 = p := by
      simp [InheritableItem.commonResolve, hs]
    rw [InheritableItem.resolve, if_pos hin,
      InheritableItem.resolveGetParentOrSettings, h1, h2, hsn, h3]

/-- Witness for C6 (amended) at a concrete input: for `proxy_url_ext` the
consulted attribute is the shared `_proxy` one, the settings name is the full
property name, and the resolution falls through to
`default_proxy_url_ext`. -/
theorem claim_C6_settings_names_witness :
    InheritableItem.commonResolve attrsProxy "proxy_url_ext"
      = (VALUE_INHERITED, "proxy_url_ext") ∧
    InheritableItem.resolve envProxy attrsProxy "profile" "p0" "proxy_url_ext"
      = Except.error ⟨"profile", "p0", "proxy_url_ext"⟩ := by
  constructor
  · exact (claim_C6_settings_names attrsProxy "proxy_url_ext").2.1 (by decide)
  · have h := (claim_C6_settings_names attrsProxy "proxy_url_ext").2.2.2.2
      envProxy "profile" "p0" (by decide) rfl rfl rfl rfl
    exact h.trans rfl

/-- C8: `_deduplicate_dict` filters the candidate mapping against the first
source of the parent → conceptual parent → settings → `default_<settings
name>` chain that defines the property at all: it removes exactly the keys
whose value equals that source's value for the same key, leaves every other
key in place, and a candidate identical to the source's mapping deduplicates
to the empty mapping. -/
theorem claim_C8_deduplicate (env : ResolveEnv) (attrs : String → Value)
    (p : String) (pd value : DictV)
    (hsrc : InheritableItem.resolveGetParentOrSettings env p
        (InheritableItem.commonResolve attrs p).2 = some (Value.dict pd))
    (hpd : nodupKeys pd) :
    InheritableItem.deduplicateDict env attrs p value
      = value.filter (fun kv => decide (¬ alookup pd kv.1 = some kv.2)) ∧
    (value = pd → InheritableItem.deduplicateDict env attrs p value = []) ∧
    (∀ kv ∈ value, ¬ alookup pd kv.1 = some kv.2 →
      kv ∈ InheritableItem.deduplicateDict env attrs p value) := by
  have hpv : InheritableItem.deduplicateParentValue env attrs p = pd := by
    simp [InheritableItem.deduplicateParentValue, hsrc, Value.asDict]
  refine ⟨?_, ?_, ?_⟩
  · simp [InheritableItem.deduplicateDict, hpv]
  · intro hv
    subst hv
    simp only [InheritableItem.deduplicateDict, hpv]
    rw [List.filter_eq_nil_iff]
    intro kv hkv
    simp [alookup_self_of_nodup value hpd kv hkv]
  · intro kv hkv hne
    simp only [InheritableItem.deduplicateDict, hpv]
    exact List.mem_filter.mpr ⟨hkv, by simpa using hne⟩

/-- Witness for C8 at a concrete input: a candidate identical to the direct
parent's kernel-options mapping deduplicates to the empty mapping. -/
theorem claim_C8_deduplicate_witness :
    InheritableItem.deduplicateDict env8 attrs8 "kernel_options"
      [("a", SVal.str "1"), ("b", SVal.str "2")] = [] := by
  exact (claim_C8_deduplicate env8 attrs8 "kernel_options"
      [("a", SVal.str "1"), ("b", SVal.str "2")]
      [("a", SVal.str "1"), ("b", SVal.str "2")] rfl (by decide)).2.1 rfl

/-- C9: the code-level behaviour of the `name` setter: non-strings raise the
type error and strings with disallowed characters raise the validation
error, but — because `$` in Python also matches just before one trailing
newline — a name consisting of allowed characters followed by a single `\n`
is accepted and stored, contradicting the documented all-characters
invariant. -/
theorem claim_C9_name_trailing_newline_bug :
    BaseItem.set_name (Value.str "abc\n") = Except.ok "abc\n" ∧
    isAllowedNameChar '\n' = false ∧
    BaseItem.set_name (Value.str "ab!c")
      = Except.error NameSetError.valueError ∧
    BaseItem.set_name (Value.int 3) = Except.error NameSetError.typeError ∧
    BaseItem.set_name (Value.str "Valid_name-0.9:x")
      = Except.ok "Valid_name-0.9:x" := by
  exact ⟨rfl, by decide, rfl, rfl, rfl⟩

/-- C7: for an inheritable item of a registry with pairwise-distinct uids and
the depth invariant of the `parent` setter, `descendants` never contains the
item itself, is duplicate-free as a set of items, and contains every item of
`tree_walk()`. -/
theorem claim_C7_descendants (w : World) (fuel : Nat) (self : Item)
    (hself : self ∈ w.items) (hdepth : DepthInvariant w)
    (huid : UidInjective w) :
    uidMem self (InheritableItem.descendants w fuel self) = false ∧
    UidNodup (InheritableItem.descendants w fuel self) ∧
    (∀ x ∈ InheritableItem.tree_walk w fuel self,
      uidMem x (InheritableItem.descendants w fuel self) = true) := by
  refine ⟨?_, ?_, ?_⟩
  · rw [Bool.eq_false_iff]
    intro hc
    rcases (uidMem_true_iff _ _).mp hc with ⟨y, hy, hyuid⟩
    have hreach := descendants_reaches w fuel self y hy
    have hymem : y ∈ w.items := reaches_target_mem hreach
    have hys : y = self := huid y hymem self hself hyuid
    subst hys
    exact mlt_irrefl y (reaches_mlt hdepth hself hreach)
  · cases fuel with
    | zero => simp [InheritableItem.descendants, UidNodup]
    | succ n =>
      unfold InheritableItem.descendants
      exact uidNodup_uidDedup _
  · intro x hx
    cases fuel with
    | zero => simp [InheritableItem.tree_walk] at hx
    | succ n =>
      unfold InheritableItem.descendants
      rw [uidMem_uidDedup]
      exact (uidMem_true_iff _ _).mpr ⟨x, List.mem_append_left _ hx, rfl⟩

/-- Witness for C7 on a concrete world: a distro with a dependent profile and
its sub-profile; the distro is not among its own descendants, the descendant
set is duplicate-free, and it contains the (empty) tree walk.  The dependent
profile is in the set. -/
theorem claim_C7_descendants_witness :
    uidMem itemD (InheritableItem.descendants w7 3 itemD) = false ∧
    UidNodup (InheritableItem.descendants w7 3 itemD) ∧
    uidMem itemP (InheritableItem.descendants w7 3 itemD) = true := by
  have h := claim_C7_descendants w7 3 itemD (by decide) (by decide) (by decide)
  exact ⟨h.1, h.2.1, by decide⟩

theorem cacheOfUid_mapItems2 (w : World) (f1 f2 : Item → Item)
    (h1 : ∀ i, (f1 i).uid = i.uid) (h2 : ∀ i, (f2 i).uid = i.uid)
    (u : String) :
    cacheOfUid (mapItems (mapItems w f1) f2) u
      = Option.map (fun i => (f2 (f1 i)).cache)
          (w.items.find? (fun i => decide (i.uid = u))) := by
  rw [mapItems_mapItems]
  exact cacheOfUid_mapItems w _ (fun i => by rw [h2, h1]) u

theorem cacheOfUid_mapItems3 (w : World) (f1 f2 f3 : Item → Item)
    (h1 : ∀ i, (f1 i).uid = i.uid) (h2 : ∀ i, (f2 i).uid = i.uid)
    (h3 : ∀ i, (f3 i).uid = i.uid) (u : String) :
    cacheOfUid (mapItems (mapItems (mapItems w f1) f2) f3) u
      = Option.map (fun i => (f3 (f2 (f1 i))).cache)
          (w.items.find? (fun i => decide (i.uid = u))) := by
  rw [mapItems_mapItems, mapItems_mapItems]
  exact cacheOfUid_mapItems w _ (fun i => by rw [h3, h2, h1]) u

theorem cacheOfUid_mapStore (w : World) (su k : String) (v : Value)
    (u : String) :
    cacheOfUid (mapItems w (storeAttr su k v)) u = cacheOfUid w u := by
  rw [cacheOfUid_mapItems w _ (fun i => uid_storeAttr su k v i) u]
  unfold cacheOfUid
  cases w.items.find? (fun i => decide (i.uid = u)) with
  | none => rfl
  | some j => simp [cache_storeAttr]

theorem clean_dict_cache_some (fuel : Nat) (w : World) (self : Item)
    (n : String) :
    InheritableItem.clean_dict_cache fuel w self (some n)
      = mapItems
          (if self.inmemory
              && w.isInheritableAttr self.ctype (dropUnderscore n)
              && decide (self.ctype ≠ InheritableItem.COLLECTION_TYPE)
              && (getItemByName w self.ctype self.name).isSome then
            mapItems w (invalidateResolvedIfDescendant
              (InheritableItem.descendants w fuel self))
          else w)
          (cleanOwnCache self.uid) := rfl

/-- C3 (amended): mutating the private attribute `_<prop>` of an inheritable
item that is fully loaded, present in its collection's index, of a concrete
collection type and whose class descriptor for the property is inheritable,
with caching enabled, sets the resolved-dict cache slot of every descendant
to `None` while leaving every other item's raw-dict slot unchanged; when
caching is globally disabled or the item is not fully loaded the mutation
leaves every cache untouched (including the item's own); and the item's own
two slots are cleared whenever caching is enabled and the item is in
memory. -/
theorem claim_C3_cache_invalidation (fuel : Nat) (w : World) (self : Item)
    (prop : String) (v : Value) (hmem : self ∈ w.items)
    (huid : UidInjective w)
    (hdk : BaseItem.is_dict_key ("_" ++ prop) = true) :
    (w.cacheEnabled = true → self.inmemory = true →
      w.isInheritableAttr self.ctype prop = true →
      self.ctype ≠ InheritableItem.COLLECTION_TYPE →
      (getItemByName w self.ctype self.name).isSome = true →
      ∀ j ∈ w.items, uidMem j (InheritableItem.descendants w fuel self) = true →
        j.uid ≠ self.uid →
        cacheOfUid (BaseItem.setattr_ii fuel w self ("_" ++ prop) v) j.uid
          = some ⟨j.cache.rawDict, Option.none⟩) ∧
    ((w.cacheEnabled = false ∨ self.inmemory = false) →
      ∀ u, cacheOfUid (BaseItem.setattr_ii fuel w self ("_" ++ prop) v) u
        = cacheOfUid w u) ∧
    (w.cacheEnabled = true → self.inmemory = true →
      cacheOfUid (BaseItem.setattr_ii fuel w self ("_" ++ prop) v) self.uid
        = some ⟨Option.none, Option.none⟩) ∧
    (∀ j ∈ w.items, j.uid ≠ self.uid →
      Option.map ItemCache.rawDict
          (cacheOfUid (BaseItem.setattr_ii fuel w self ("_" ++ prop) v) j.uid)
        = Option.map ItemCache.rawDict (cacheOfUid w j.uid)) := by
  refine ⟨?_, ?_, ?_, ?_⟩
  · intro hEn him hinh hct hidx j hj hjd hjne
    unfold BaseItem.setattr_ii
    rw [if_pos hdk]
    unfold InheritableItem.clean_cache
    rw [if_neg (by simp [hEn]), if_pos him]
    rw [clean_dict_cache_some]
    rw [dropUnderscore_underscore]
    have hcond : (self.inmemory && w.isInheritableAttr self.ctype prop
        && decide (self.ctype ≠ InheritableItem.COLLECTION_TYPE)
        && (getItemByName w self.ctype self.name).isSome) = true := by
      rw [him, hinh, hidx]
      simp [hct]
    rw [if_pos hcond]
    rw [cacheOfUid_mapItems3 w _ _ _
      (fun i => uid_invalidateResolvedIfDescendant _ i)
      (fun i => uid_cleanOwnCache _ i)
      (fun i => uid_storeAttr _ _ _ i) j.uid]
    rw [find_uid_of_mem w.items huid j hj]
    simp only [Option.map_some']
    rw [cache_storeAttr]
    unfold cleanOwnCache
    rw [uid_invalidateResolvedIfDescendant, if_neg hjne]
    unfold invalidateResolvedIfDescendant
    rw [if_pos hjd]
    rfl
  · intro hdis u
    unfold BaseItem.setattr_ii
    rw [if_pos hdk]
    unfold InheritableItem.clean_cache
    rcases hdis with hdis | hdis
    · rw [if_pos (by simp [hdis])]
      exact cacheOfUid_mapStore w self.uid _ v u
    · by_cases hEn : w.cacheEnabled = true
      · rw [if_neg (by simp [hEn]), if_neg (by simp [hdis])]
        exact cacheOfUid_mapStore w self.uid _ v u
      · have hEn' : w.cacheEnabled = false := by
          revert hEn
          cases w.cacheEnabled <;> simp
        rw [if_pos (by simp [hEn'])]
        exact cacheOfUid_mapStore w self.uid _ v u
  · intro hEn him
    unfold BaseItem.setattr_ii
    rw [if_pos hdk]
    unfold InheritableItem.clean_cache
    rw [if_neg (by simp [hEn]), if_pos him]
    rw [clean_dict_cache_some]
    by_cases hC : (self.inmemory
        && w.isInheritableAttr self.ctype (dropUnderscore ("_" ++ prop))
        && decide (self.ctype ≠ InheritableItem.COLLECTION_TYPE)
        && (getItemByName w self.ctype self.name).isSome) = true
    · rw [if_pos hC]
      rw [cacheOfUid_mapItems3 w _ _ _
        (fun i => uid_invalidateResolvedIfDescendant _ i)
        (fun i => uid_cleanOwnCache _ i)
        (fun i => uid_storeAttr _ _ _ i) self.uid]
      rw [find_uid_of_mem w.items huid self hmem]
      simp only [Option.map_some']
      rw [cache_storeAttr]
      unfold cleanOwnCache
      rw [uid_invalidateResolvedIfDescendant, if_pos rfl]
      rfl
    · rw [if_neg hC]
      rw [cacheOfUid_mapItems2 w _ _
        (fun i => uid_cleanOwnCache _ i)
        (fun i => uid_storeAttr _ _ _ i) self.uid]
      rw [find_uid_of_mem w.items huid self hmem]
      simp only [Option.map_some']
      rw [cache_storeAttr]
      unfold cleanOwnCache
      rw [if_pos rfl]
      rfl
  · intro j hj hjne
    unfold BaseItem.setattr_ii
    rw [if_pos hdk]
    unfold InheritableItem.clean_cache
    by_cases h1 : (!w.cacheEnabled) = true
    · rw [if_pos h1, cacheOfUid_mapStore]
    · rw [if_neg h1]
      by_cases him : self.inmemory = true
      · rw [if_pos him]
        rw [clean_dict_cache_some]
        by_cases hC : (self.inmemory
            && w.isInheritableAttr self.ctype (dropUnderscore ("_" ++ prop))
            && decide (self.ctype ≠ InheritableItem.COLLECTION_TYPE)
            && (getItemByName w self.ctype self.name).isSome) = true
        · rw [if_pos hC]
          rw [cacheOfUid_mapItems3 w _ _ _
            (fun i => uid_invalidateResolvedIfDescendant _ i)
            (fun i => uid_cleanOwnCache _ i)
            (fun i => uid_storeAttr _ _ _ i) j.uid]
          rw [find_uid_of_mem w.items huid j hj]
          unfold cacheOfUid
          rw [find_uid_of_mem w.items huid j hj]
          simp only [Option.map_some']
          rw [cache_storeAttr]
          unfold cleanOwnCache
          rw [uid_invalidateResolvedIfDescendant, if_neg hjne]
          rw [raw_invalidateResolvedIfDescendant]
        · rw [if_neg hC]
          rw [cacheOfUid_mapItems2 w _ _
            (fun i => uid_cleanOwnCache _ i)
            (fun i => uid_storeAttr _ _ _ i) j.uid]
          rw [find_uid_of_mem w.items huid j hj]
          unfold cacheOfUid
          rw [find_uid_of_mem w.items huid j hj]
          simp only [Option.map_some']
          rw [cache_storeAttr]
          unfold cleanOwnCache
          rw [if_neg hjne]
      · rw [if_neg him, cacheOfUid_mapStore]

/-- C3 counterexample to the claim as stated: with caching globally disabled,
mutating an attribute leaves even the item's own raw and resolved cache
slots untouched, while the claim asserts they are invalidated on any
attribute mutation. -/
theorem claim_C3_counterexample :
    w3c.cacheEnabled = false ∧
    cacheOfUid (BaseItem.setattr_ii 2 w3c itemC3 "_comment" (Value.str "x"))
        itemC3.uid
      = some ⟨some [("raw", SVal.str "c")], some [("res", SVal.str "c")]⟩ ∧
    (some (ItemCache.mk (some [("raw", SVal.str "c")])
        (some [("res", SVal.str "c")]))
      ≠ some (ItemCache.mk Option.none Option.none)) := by
  exact ⟨rfl, rfl, by decide⟩

/-- Witness for C3 (amended) on a concrete world: mutating the profile's
`_kernel_options` clears the dependent system's resolved-dict slot but not
its raw-dict slot, and clears both of the profile's own slots. -/
theorem claim_C3_cache_invalidation_witness :
    cacheOfUid (BaseItem.setattr_ii 2 w3 itemP3 ("_" ++ "kernel_options")
        (Value.dict [("a", SVal.str "1")])) itemS3.uid
      = some ⟨itemS3.cache.rawDict, Option.none⟩ ∧
    cacheOfUid (BaseItem.setattr_ii 2 w3 itemP3 ("_" ++ "kernel_options")
        (Value.dict [("a", SVal.str "1")])) itemP3.uid
      = some ⟨Option.none, Option.none⟩ := by
  have h := claim_C3_cache_invalidation 2 w3 itemP3 "kernel_options"
      (Value.dict [("a", SVal.str "1")]) (by decide) (by decide) (by decide)
  exact ⟨h.1 rfl rfl rfl (by decide) rfl itemS3 (by decide) (by decide)
      (by decide),
    h.2.2.1 rfl rfl⟩

theorem from_dict_loop_spec
    (setf : String → Value → List (String × Value) → List (String × Value))
    (hpres : ∀ k v a, (setf k v a).map Prod.fst = a.map Prod.fst)
    (keys0 : List String) :
    ∀ (d : List (String × Value)) (a : EState) (r : List String),
      a.attrs.map Prod.fst = keys0 →
      d.foldl (BaseItem.from_dict_step setf) (a, r)
        = (⟨d.foldl (fun acc kv =>
              if pyToLower kv.1 ∈ keys0 then setf (pyToLower kv.1) kv.2 acc
              else acc)
            a.attrs, a.inmemory, a.cache⟩,
           r ++ (d.filter
              (fun kv => decide (pyToLower kv.1 ∉ keys0))).map Prod.fst) := by
  intro d
  induction d with
  | nil =>
    intro a r hk
    simp
  | cons kv rest ih =>
    intro a r hk
    rw [List.foldl_cons, List.foldl_cons, List.filter_cons]
    by_cases hmem : pyToLower kv.1 ∈ keys0
    · have hsome : (alookup a.attrs (pyToLower kv.1)).isSome = true :=
        (alookup_isSome_iff _ _).mpr (by rw [hk]; exact hmem)
      have hstep : BaseItem.from_dict_step setf (a, r) kv
          = ({ a with attrs := setf (pyToLower kv.1) kv.2 a.attrs }, r) := by
        unfold BaseItem.from_dict_step
        simp [hsome]
      rw [hstep, ih { a with attrs := setf (pyToLower kv.1) kv.2 a.attrs } r
        (by rw [hpres]; exact hk)]
      simp [hmem]
    · have hnone : (alookup a.attrs (pyToLower kv.1)).isSome = false := by
        rw [Bool.eq_false_iff]
        intro hs
        exact hmem (by rw [← hk]; exact (alookup_isSome_iff _ _).mp hs)
      have hstep : BaseItem.from_dict_step setf (a, r) kv = (a, r ++ [kv.1]) := by
        unfold BaseItem.from_dict_step
        simp [hnone]
      rw [hstep, ih a (r ++ [kv.1]) hk]
      simp [hmem]

/-- C10: `from_dict` is not atomic on error — on an input holding both
recognized keys (whose lower-cased form names an existing private attribute)
and unrecognized keys, every recognized key's setter is applied in input
order and the cache is invalidated before the unknown-keys error is raised,
which carries the partially mutated state and the list of unknown keys; no
rollback occurs. -/
theorem claim_C10_from_dict_partial (cacheEnabled : Bool)
    (setf : String → Value → List (String × Value) → List (String × Value))
    (σ : EState) (d : List (String × Value))
    (hpres : ∀ k v a, (setf k v a).map Prod.fst = a.map Prod.fst)
    (hen : cacheEnabled = true) (him : σ.inmemory = true)
    (hbad : ∃ kv ∈ d, pyToLower kv.1 ∉ σ.attrs.map Prod.fst)
    (_hgood : ∃ kv ∈ d, pyToLower kv.1 ∈ σ.attrs.map Prod.fst) :
    BaseItem.from_dict cacheEnabled setf σ d
      = Except.error
          ((d.filter (fun kv =>
              decide (pyToLower kv.1 ∉ σ.attrs.map Prod.fst))).map Prod.fst,
           ⟨d.foldl (fun acc kv =>
               if pyToLower kv.1 ∈ σ.attrs.map Prod.fst then
                 setf (pyToLower kv.1) kv.2 acc
               else acc) σ.attrs,
            σ.inmemory, ItemCache.mk Option.none Option.none⟩) := by
  have hdne : d ≠ [] := by
    rcases hbad with ⟨kv, hkv, _⟩
    exact List.ne_nil_of_mem hkv
  rcases hbad with ⟨kvb, hkvb, hkb⟩
  have hmemf : kvb.1 ∈ (d.filter (fun kv =>
      decide (pyToLower kv.1 ∉ σ.attrs.map Prod.fst))).map Prod.fst :=
    List.mem_map_of_mem Prod.fst
      (List.mem_filter.mpr ⟨hkvb, by simpa using hkb⟩)
  have hfne : (d.filter (fun kv =>
      decide (pyToLower kv.1 ∉ σ.attrs.map Prod.fst))).map Prod.fst ≠ [] :=
    List.ne_nil_of_mem hmemf
  unfold BaseItem.from_dict
  rw [if_neg (fun h => hdne (List.isEmpty_iff.mp h))]
  rw [from_dict_loop_spec setf hpres (σ.attrs.map Prod.fst) d σ [] rfl]
  simp only [List.nil_append]
  rw [if_neg (fun h => hfne (List.isEmpty_iff.mp h))]
  unfold BaseItem.clean_cache_base
  rw [hen]
  simp [him, ItemCache.cleanDictCache]

/-- Witness for C10 at concrete inputs: the recognized `name` key is applied
and the cache cleared before the unknown-keys error reporting `bogus` is
raised. -/
theorem claim_C10_from_dict_partial_witness :
    BaseItem.from_dict true overwriteSetter sigma10 dict10
      = Except.error (["bogus"],
          ⟨[("name", Value.str "n1"), ("comment", Value.str "")], true,
            ItemCache.mk Option.none Option.none⟩) := by
  have h := claim_C10_from_dict_partial true overwriteSetter sigma10 dict10
      overwriteSetter_keys rfl rfl
      ⟨("bogus", Value.int 1), by decide, by decide⟩
      ⟨("name", Value.str "n1"), by decide, by decide⟩
  rw [h]
  rfl

end Cobbler
